import Mathlib

/-!
Verification development for the cafe-management forecasting engine.

The Python sources under `web-app/scripts` and `web-app/Dataset-creat` are
shallowly embedded here: money amounts and feature values become `ℚ`,
calendar dates become absolute day numbers in `ℤ` (with the calendar
decomposition done by the external `datetime`/`pandas` library modelled as a
`Calendar` record), stateful loops become structural recursions carrying
their state explicitly, and the opaque fitted regressors become function
arguments `List ℚ → ℚ`.

Where the Python code compares `abs(z) > threshold` for a z-score built
with a square root, the embedding compares squares instead
(`(n-1)*(v-μ)^2 > T^2*SS` states `|v-μ|/sqrt(SS/(n-1)) > T` for `T ≥ 0`),
which keeps every definition executable over `ℚ`.
-/

namespace CafeForecast

/-- Arithmetic mean of a list of rationals, as `pandas.Series.mean`
computes it on a non-empty column (for `[]` this yields `0/0 = 0` in `ℚ`;
call sites guard emptiness the way the Python code does). -/
def listMean (l : List ℚ) : ℚ := l.sum / (l.length : ℚ)

/-- The last `n` entries of a list, as `pandas.Series.tail(n)`. -/
def lastN (n : ℕ) (l : List ℚ) : List ℚ := l.drop (l.length - n)

/-- Lookup in an association list of feature values, as `dict.get` /
`col in dict` on a Python `dict` with string keys. -/
def lookupQ (kvs : List (String × ℚ)) (k : String) : Option ℚ :=
  (kvs.find? (fun p => p.1 = k)).map (fun p => p.2)

/-- Calendar decomposition of an absolute day number, standing for the
external `datetime`/`pandas` date library: `weekday` is Monday=0..Sunday=6
(hence always `< 7`), `dayOfMonth` and `month` are the other calendar
fields the feature builders read.  Consecutive absolute day numbers are
consecutive dates. -/
structure Calendar where
  weekday : ℤ → ℕ
  dayOfMonth : ℤ → ℚ
  month : ℤ → ℚ
  weekday_lt : ∀ d, weekday d < 7

/-- A concrete calendar used to evaluate closed statements (day 0 taken to
be a Monday); every property proved about the embeddings is
calendar-generic unless stated otherwise. -/
def trivCal : Calendar where
  weekday d := (d % 7).toNat
  dayOfMonth _ := 1
  month _ := 1
  weekday_lt d := by
    show (d % 7).toNat < 7
    have h1 : 0 ≤ d % 7 := Int.emod_nonneg d (by norm_num)
    have h2 : d % 7 < 7 := Int.emod_lt_of_pos d (by norm_num)
    have h3 : ((d % 7).toNat : ℤ) = d % 7 := Int.toNat_of_nonneg h1
    omega

/-! ### Confidence intervals

Embeds `calculate_confidence_interval` (predict_custom.py lines 125-136)
in the branch where the caller supplies `historical_std`, which is how both
report generators call it (lines 387 and 512); the `std` estimation branch
for `historical_std=None` (lines 127-128) is not exercised by any claim.
`np.maximum(lower, 0)` is the element-wise clamp. -/

/-- z multiplier: `1.96 if confidence == 0.95 else 1.645` (line 132). -/
def ciZ (confidence : ℚ) : ℚ := if confidence = 95/100 then 196/100 else 1645/1000

/-- `margin = z_score * std` (line 133). -/
def ciMargin (std confidence : ℚ) : ℚ := ciZ confidence * std

/-- `lower = predictions - margin` (line 134), before clamping. -/
def ciLowerRaw (predictions : List ℚ) (std confidence : ℚ) : List ℚ :=
  predictions.map (fun p => p - ciMargin std confidence)

/-- `upper = predictions + margin` (line 135). -/
def ciUpper (predictions : List ℚ) (std confidence : ℚ) : List ℚ :=
  predictions.map (fun p => p + ciMargin std confidence)

/-- `return np.maximum(lower, 0), upper` (line 136). -/
def calculate_confidence_interval (predictions : List ℚ) (std confidence : ℚ) :
    List ℚ × List ℚ :=
  ((ciLowerRaw predictions std confidence).map (fun x => max x 0),
   ciUpper predictions std confidence)

/-! ### Best-so-far selection loops

Several Python sites keep a running best while scanning candidates in
order: the `best_mae` loop of `train_regression` (train_model.py lines
180-194), taking the first row of a frame sorted ascending
(train_model.py lines 404-410), and Python's builtin `max`/`min` with a
key (predict_custom.py lines 182-183).  All replace the current best only
when the candidate is strictly better, so the earliest optimum is kept. -/

/-- Fold keeping the running best; `keep c b = true` means candidate `c`
replaces current best `b`. -/
def loopBest {α : Type} (keep : α → α → Bool) (l : List α) : Option α :=
  l.foldl (fun acc c =>
    match acc with
    | none => some c
    | some b => if keep c b then some c else some b) none

/-! ### Anomaly detection

Embeds `detect_anomalies` (predict_custom.py lines 139-154).  The Python
code computes `mean = df[col].mean()`, `std = df[col].std()` — pandas'
default `std` is the **sample** standard deviation (`ddof=1`,
`sqrt(SS/(n-1))` with `SS = Σ(x-μ)²`) — returns an empty frame when
`std == 0`, and otherwise keeps the rows with `abs((x-mean)/std) >
threshold`.  Over `ℚ` the flag test is stated on squares:
`(n-1)*(v-μ)² > T²*SS` is `|v-μ|/sqrt(SS/(n-1)) > T` whenever `T ≥ 0`
and `SS > 0`, and for `T < 0` every point of a non-degenerate series
is flagged under both formulations.  An empty frame (n = 0) skips
detection; for n = 1 pandas' sample std is NaN, `NaN == 0` is false and
every NaN comparison `abs(z) > threshold` is false, so no row is flagged —
both cases return the empty result, merged into the `n < 2` guard.
The `spike`/`drop` direction shown in the reports (predict_custom.py
lines 424 and 565) is `z > 0`, i.e. `value > mean`. -/

structure AnomalyRow where
  idx : ℕ
  value : ℚ
  spike : Bool
deriving Repr, DecidableEq

/-- `df[column].mean()` over the full series. -/
def anMean (xs : List ℚ) : ℚ := listMean xs

/-- Sum of squared deviations from the mean over the full series. -/
def anSS (xs : List ℚ) : ℚ := (xs.map (fun x => (x - anMean xs)^2)).sum

/-- The flagged rows of `detect_anomalies`, with their direction. -/
def detect_anomalies (xs : List ℚ) (threshold : ℚ) : List AnomalyRow :=
  if xs.length < 2 then []
  else if anSS xs = 0 then []
  else
    (List.range xs.length).filterMap (fun i =>
      let v := xs.getD i 0
      if ((xs.length : ℚ) - 1) * (v - anMean xs)^2 > threshold^2 * anSS xs then
        some ⟨i, v, decide (anMean xs < v)⟩
      else none)

/-- The detector the claim describes, with the **population** standard
deviation (`sqrt(SS/n)`): flag when `n*(v-μ)² > T²*SS`.  Stated from the
spec's words for comparison with the source's `detect_anomalies`. -/
def detectAnomaliesSpecPop (xs : List ℚ) (threshold : ℚ) : List AnomalyRow :=
  if xs.length = 0 then []
  else if anSS xs = 0 then []
  else
    (List.range xs.length).filterMap (fun i =>
      let v := xs.getD i 0
      if (xs.length : ℚ) * (v - anMean xs)^2 > threshold^2 * anSS xs then
        some ⟨i, v, decide (anMean xs < v)⟩
      else none)

/-! ### Seasonal patterns

Embeds `analyze_seasonal_patterns` (predict_custom.py lines 157-201).
`df.groupby('day_name')['total_sales'].mean()` groups the rows by weekday
name; pandas sorts group keys, so the resulting dict iterates in the
alphabetical order of the English day names: Friday (4), Monday (0),
Saturday (5), Sunday (6), Thursday (3), Tuesday (1), Wednesday (2) —
only days present in the data appear.  `best_day`/`worst_day` are Python
`max`/`min` over the dict items keyed by the mean (first optimum in
iteration order wins ties).  The weekend set here is `[4, 5]`
(Friday/Saturday, line 186).  `weekend_boost` stays `0` unless
`weekday_avg > 0` (lines 190-192).  An empty frame returns `{}`,
modelled as `none`. -/

structure SeasonalPatterns where
  weeklyPattern : List (ℕ × ℚ)
  bestDay : ℕ × ℚ
  worstDay : ℕ × ℚ
  weekendAvg : ℚ
  weekdayAvg : ℚ
  weekendBoost : ℚ
deriving Repr

/-- Weekday indices in the alphabetical order of their English names,
the iteration order of the grouped means. -/
def dowsAlphabetical : List ℕ := [4, 0, 5, 6, 3, 1, 2]

/-- The sales values falling on weekday `d`. -/
def salesOfDow (cal : Calendar) (rows : List (ℤ × ℚ)) (d : ℕ) : List ℚ :=
  (rows.filter (fun r => cal.weekday r.1 == d)).map (fun r => r.2)

/-- Membership in the weekend set `[4, 5]` of line 186. -/
def isWeekend45 (cal : Calendar) (r : ℤ × ℚ) : Bool :=
  cal.weekday r.1 == 4 || cal.weekday r.1 == 5

/-- The grouped per-weekday means, one entry per weekday present in the
data, in the groupby iteration order. -/
def seasonalGroups (cal : Calendar) (rows : List (ℤ × ℚ)) : List (ℕ × ℚ) :=
  dowsAlphabetical.filterMap (fun d =>
    if salesOfDow cal rows d = [] then none
    else some (d, listMean (salesOfDow cal rows d)))

/-- `weekend_avg` of line 187: mean of the weekend rows if any, else 0. -/
def weekendAvgOf (cal : Calendar) (rows : List (ℤ × ℚ)) : ℚ :=
  if (rows.filter (fun r => isWeekend45 cal r)).map (fun r => r.2) = [] then 0
  else listMean ((rows.filter (fun r => isWeekend45 cal r)).map (fun r => r.2))

/-- `weekday_avg` of line 188: mean of the non-weekend rows if any, else 0. -/
def weekdayAvgOf (cal : Calendar) (rows : List (ℤ × ℚ)) : ℚ :=
  if (rows.filter (fun r => !(isWeekend45 cal r))).map (fun r => r.2) = [] then 0
  else listMean ((rows.filter (fun r => !(isWeekend45 cal r))).map (fun r => r.2))

def analyze_seasonal_patterns (cal : Calendar) (rows : List (ℤ × ℚ)) :
    Option SeasonalPatterns :=
  if rows = [] then none
  else
    match loopBest (fun p b => decide (b.2 < p.2)) (seasonalGroups cal rows),
          loopBest (fun p b => decide (p.2 < b.2)) (seasonalGroups cal rows) with
    | some best, some worst =>
      some { weeklyPattern := seasonalGroups cal rows
             bestDay := best
             worstDay := worst
             weekendAvg := weekendAvgOf cal rows
             weekdayAvg := weekdayAvgOf cal rows
             weekendBoost :=
               if 0 < weekdayAvgOf cal rows then
                 ((weekendAvgOf cal rows - weekdayAvgOf cal rows) / weekdayAvgOf cal rows) * 100
               else 0 }
    | _, _ => none

/-! ### LightGBM recursive forecast

Embeds `forecast_with_lightgbm` (predict_custom.py lines 294-349).
Inputs: the fitted model (an opaque `List ℚ → ℚ`), the `features` name
list from the persisted metadata, the observed `total_sales` column in
date order, and `last_date = df.index.max()` as an absolute day number.
The loop body (lines 306-344) builds a feature dict per step, reads the
named features in metadata order **defaulting missing names to 0**
(`feature_values.get(f, 0)`, line 338), and appends `max(0, pred)`.
The `except` fallback of lines 343-344 cannot fire for a total model
function.  Note which inputs each dict entry reads: `sales_lag_1` is the
previous prediction from step 2 on (line 320), `sales_lag_2`/`sales_lag_3`
fall back to observed data or the historical mean (lines 323, 326), and
`sales_rolling_3`/`sales_rolling_7`/`sales_trend` are computed from the
**observed** series only, identically at every step (lines 329-335). -/

/-- The feature dict built at 0-based step `i`, given the predictions
`preds` of the earlier steps (lines 311-335). -/
def lgbFeatureValues (cal : Calendar) (sales : List ℚ) (lastDate : ℤ)
    (i : ℕ) (preds : List ℚ) : List (String × ℚ) :=
  let nextDate := lastDate + ((i + 1 : ℕ) : ℤ)
  let wd := cal.weekday nextDate
  let base : List (String × ℚ) :=
    [("day_of_week", (wd : ℚ)),
     ("is_weekend", if wd = 4 ∨ wd = 5 then 1 else 0),
     ("day_of_month", cal.dayOfMonth nextDate),
     ("month", cal.month nextDate)]
  if 0 < sales.length then
    base ++
    [("sales_lag_1",
       if i = 0 then sales.getD (sales.length - 1) 0 else preds.getD (preds.length - 1) 0),
     ("orders_lag_1", 0), ("items_lag_1", 0),
     ("sales_lag_2",
       if 1 < sales.length ∧ i < 2 then sales.getD (sales.length - 2) 0
       else if 1 < preds.length then preds.getD (preds.length - 2) 0
       else listMean sales),
     ("orders_lag_2", 0), ("items_lag_2", 0),
     ("sales_lag_3",
       if 2 < sales.length ∧ i < 3 then sales.getD (sales.length - 3) 0
       else listMean sales),
     ("orders_lag_3", 0), ("items_lag_3", 0),
     ("sales_rolling_3", listMean (lastN 3 sales)),
     ("orders_rolling_3", 0), ("items_rolling_3", 0),
     ("sales_rolling_7", listMean (lastN 7 sales)),
     ("orders_rolling_7", 0), ("items_rolling_7", 0),
     ("sales_trend",
       if 1 < sales.length then listMean ((sales.zip sales.tail).map (fun p => p.2 - p.1))
       else 0)]
  else base

/-- `X = np.array([[feature_values.get(f, 0) for f in features]])`
(line 338): missing names silently become 0. -/
def lgbX (features : List String) (kvs : List (String × ℚ)) : List ℚ :=
  features.map (fun f => (lookupQ kvs f).getD 0)

/-- One recorded step of the forecast loop. -/
structure LgbStep where
  date : ℤ
  x : List ℚ
  pred : ℚ
deriving Repr, DecidableEq, Inhabited

/-- The forecast loop (lines 306-344): `fuel` steps remain, `i` is the
0-based step index, `preds` the predictions made so far. -/
def lgbRun (model : List ℚ → ℚ) (features : List String) (cal : Calendar)
    (sales : List ℚ) (lastDate : ℤ) : ℕ → ℕ → List ℚ → List LgbStep
  | 0, _, _ => []
  | fuel + 1, i, preds =>
    let kvs := lgbFeatureValues cal sales lastDate i preds
    let x := lgbX features kvs
    let p := max 0 (model x)
    ⟨lastDate + ((i + 1 : ℕ) : ℤ), x, p⟩ ::
      lgbRun model features cal sales lastDate fuel (i + 1) (preds ++ [p])

/-- `forecast_with_lightgbm`: empty history returns an empty frame
(lines 296-297); otherwise the `(date, predicted_sales)` rows of lines
346-349. -/
def forecast_with_lightgbm (model : List ℚ → ℚ) (features : List String)
    (cal : Calendar) (sales : List ℚ) (lastDate : ℤ) (days : ℕ) : List (ℤ × ℚ) :=
  if sales = [] then []
  else (lgbRun model features cal sales lastDate days 0 []).map (fun s => (s.date, s.pred))

/-! ### Daily prediction pipeline forecast

Embeds `generate_predictions` (daily_predictions.py lines 53-81).
`last_row = df.iloc[-1]` is the last prepared feature row, modelled as an
association list of its named numeric entries.  Every step rebuilds the
four calendar features for `next_day` and then copies **the same**
`last_row` values for every other requested feature column, defaulting
absent columns to 0 (lines 67-69); no predicted value ever feeds back,
and the model output is appended without clamping (lines 72-77). -/

/-- The feature dict of step `i` (1-based, `next_day = last day + i`). -/
def genPredFeatures (cal : Calendar) (lastRow : List (String × ℚ)) (lastDay : ℤ)
    (featureCols : List String) (i : ℕ) : List (String × ℚ) :=
  let nextDay := lastDay + (i : ℤ)
  let wd := cal.weekday nextDay
  let base : List (String × ℚ) :=
    [("day_of_week", (wd : ℚ)),
     ("day_of_month", cal.dayOfMonth nextDay),
     ("month", cal.month nextDay),
     ("is_weekend", if 5 ≤ wd then 1 else 0)]
  featureCols.foldl (fun acc c =>
    if (lookupQ acc c).isSome then acc
    else acc ++ [(c, (lookupQ lastRow c).getD 0)]) base

/-- `X_pred = pd.DataFrame([features])[feature_cols]` (line 71). -/
def genPredX (cal : Calendar) (lastRow : List (String × ℚ)) (lastDay : ℤ)
    (featureCols : List String) (i : ℕ) : List ℚ :=
  featureCols.map (fun c =>
    (lookupQ (genPredFeatures cal lastRow lastDay featureCols i) c).getD 0)

/-- `generate_predictions`: the `(date, predicted_sales)` pairs for steps
`i = 1 .. n_days`; `predicted_sales` is the raw model output. -/
def generate_predictions (model : List ℚ → ℚ) (cal : Calendar)
    (lastRow : List (String × ℚ)) (lastDay : ℤ) (featureCols : List String)
    (nDays : ℕ) : List (ℤ × ℚ) :=
  (List.range nDays).map (fun k =>
    (lastDay + ((k + 1 : ℕ) : ℤ),
     model (genPredX cal lastRow lastDay featureCols (k + 1))))

/-! ### Training-script recursive forecast

Embeds the regression branch of `forecast_next_days`
(Dataset-creat/train_model.py lines 288-338).  The loop keeps a private
`history_df` buffer, initially the observed `total_sales` series, and
appends each prediction to it (lines 337-338), so `lag_1_sales` is
`history_df.iloc[-1]` (line 313) and `rolling_7d_sales_avg` is
`history_df['total_sales'].tail(7).mean()` (line 323) — both read the
buffer including earlier predictions.  The fitted scaler and model are
opaque functions; `is_weekend` here is `dayofweek >= 4` (line 308). -/

/-- The feature row of the step forecasting `date`, reading the buffer
`buf` (lines 304-326); entries beyond the calendar ones are only added
when their name is in `feature_cols`. -/
def fnRow (cal : Calendar) (buf : List ℚ) (date : ℤ)
    (featureCols : List String) : List (String × ℚ) :=
  let wd := cal.weekday date
  [("day_of_week", (wd : ℚ)),
   ("is_weekend", if 4 ≤ wd then 1 else 0)] ++
  (if "lag_1_sales" ∈ featureCols then
    [("lag_1_sales", buf.getD (buf.length - 1) 0)] else []) ++
  (if "lag_7_sales" ∈ featureCols then
    [("lag_7_sales",
      if 7 ≤ buf.length then buf.getD (buf.length - 7) 0 else listMean buf)] else []) ++
  (if "rolling_7d_sales_avg" ∈ featureCols then
    [("rolling_7d_sales_avg", listMean (lastN 7 buf))] else []) ++
  (if "rolling_30d_sales_avg" ∈ featureCols then
    [("rolling_30d_sales_avg", listMean (lastN 30 buf))] else [])

/-- One recorded step of `forecast_next_days`. -/
structure FnStep where
  row : List (String × ℚ)
  x : List ℚ
  pred : ℚ
deriving Repr, DecidableEq, Inhabited

/-- The forecast loop over `future_dates` (lines 302-338): `startDate` is
`df.index.max() + 1`, `i` the 0-based step offset, `buf` the private
history buffer. -/
def fnRun (model : List ℚ → ℚ) (scaler : List ℚ → List ℚ) (cal : Calendar)
    (featureCols : List String) (startDate : ℤ) : ℕ → ℕ → List ℚ → List FnStep
  | 0, _, _ => []
  | fuel + 1, i, buf =>
    let row := fnRow cal buf (startDate + (i : ℤ)) featureCols
    let x := featureCols.map (fun c => (lookupQ row c).getD 0)
    let p := model (scaler x)
    ⟨row, x, p⟩ :: fnRun model scaler cal featureCols startDate fuel (i + 1) (buf ++ [p])

/-- `forecast_next_days` (regression branch): the `(date, prediction)`
rows of lines 359-367. -/
def forecast_next_days (model : List ℚ → ℚ) (scaler : List ℚ → List ℚ)
    (cal : Calendar) (featureCols : List String) (histSales : List ℚ)
    (lastDate : ℤ) (days : ℕ) : List (ℤ × ℚ) :=
  (List.range days).zip
    ((fnRun model scaler cal featureCols (lastDate + 1) days 0 histSales).map
      (fun s => s.pred)) |>.map (fun p => (lastDate + 1 + (p.1 : ℤ), p.2))

/-! ### Feature preparation for training

Embeds `load_and_prepare_data` (train_lightgbm.py lines 20-50); the
`load_latest_data` of daily_predictions.py lines 26-51 performs the same
steps.  The input is the ordered daily dataset; `shift(k)` leaves the
first `k` rows NaN, `rolling(w, min_periods=1).mean()` is always defined,
`pct_change(periods=3).fillna(0)` zeroes its first three rows, and the
final `df.dropna()` therefore removes exactly the first
`min(3, len)` rows (those with a NaN `*_lag_3`, `*_lag_2` or `*_lag_1`).
pandas' `pct_change` yields `inf` when the value three rows back is 0 and
the current one is not; `inf` is not NaN and is not dropped, and no claim
depends on the trend value, so the embedding uses `ℚ` division (0 when the
denominator is 0) there.  The input is taken already sorted ascending by
day with no duplicates — the claims' premise — on which
`sort_values('day')` is the identity. -/

structure DailyRecord where
  day : ℤ
  total_sales : ℚ
  orders_count : ℚ
  items_sold : ℚ
deriving Repr, DecidableEq, Inhabited

structure FeatureRow where
  day : ℤ
  day_of_week : ℕ
  day_of_month : ℚ
  month : ℚ
  is_weekend : ℚ
  sales_lag_1 : ℚ
  orders_lag_1 : ℚ
  items_lag_1 : ℚ
  sales_lag_2 : ℚ
  orders_lag_2 : ℚ
  items_lag_2 : ℚ
  sales_lag_3 : ℚ
  orders_lag_3 : ℚ
  items_lag_3 : ℚ
  sales_rolling_3 : ℚ
  orders_rolling_3 : ℚ
  items_rolling_3 : ℚ
  sales_rolling_7 : ℚ
  orders_rolling_7 : ℚ
  items_rolling_7 : ℚ
  sales_trend : ℚ
deriving Repr, DecidableEq, Inhabited

/-- The fully populated feature row at input index `i` (only meaningful
for `3 ≤ i`, where every lag is defined). -/
def mkFeatureRow (cal : Calendar) (recs : List DailyRecord) (i : ℕ) : FeatureRow :=
  let s := fun j => (recs.getD j default).total_sales
  let o := fun j => (recs.getD j default).orders_count
  let it := fun j => (recs.getD j default).items_sold
  let roll := fun (w : ℕ) (f : ℕ → ℚ) =>
    listMean (lastN w ((List.range (i + 1)).map f))
  let d := (recs.getD i default).day
  { day := d
    day_of_week := cal.weekday d
    day_of_month := cal.dayOfMonth d
    month := cal.month d
    is_weekend := if 5 ≤ cal.weekday d then 1 else 0
    sales_lag_1 := s (i - 1), orders_lag_1 := o (i - 1), items_lag_1 := it (i - 1)
    sales_lag_2 := s (i - 2), orders_lag_2 := o (i - 2), items_lag_2 := it (i - 2)
    sales_lag_3 := s (i - 3), orders_lag_3 := o (i - 3), items_lag_3 := it (i - 3)
    sales_rolling_3 := roll 3 s, orders_rolling_3 := roll 3 o, items_rolling_3 := roll 3 it
    sales_rolling_7 := roll 7 s, orders_rolling_7 := roll 7 o, items_rolling_7 := roll 7 it
    sales_trend := if 3 ≤ i then (s i - s (i - 3)) / s (i - 3) else 0 }

/-- `load_and_prepare_data`: feature engineering followed by `dropna()`,
which keeps exactly the rows with index `3 ≤ i`. -/
def load_and_prepare_data (cal : Calendar) (recs : List DailyRecord) : List FeatureRow :=
  (List.range recs.length).filterMap (fun i =>
    if 3 ≤ i then some (mkFeatureRow cal recs i) else none)

/-- Ascending five-day input used to evaluate the feature-preparation
step on a concrete series. -/
def recsC3 : List DailyRecord :=
  [⟨0, 10, 1, 1⟩, ⟨1, 20, 2, 2⟩, ⟨2, 30, 3, 3⟩, ⟨3, 40, 4, 4⟩, ⟨4, 50, 5, 5⟩]

/-! ### Validation splits

`train_lightgbm_model` (train_lightgbm.py lines 76-95) validates with
`sklearn.model_selection.TimeSeriesSplit(n_splits=5)`: with `n` samples
and `ts = n / 6` test rows per fold, fold `k` (0-based) trains on indices
`[0, n - (5-k)*ts)` and tests on the next `ts` indices — an expanding
chronological window.

`legacy_train_model.train` (line 74) and `train_tf_model.train` (line 71)
instead validate with `train_test_split(X, y, test_size=0.2,
random_state=42)`, whose default is `shuffle=True`: sklearn draws a
permutation of the indices from the seeded RNG, takes the first
`n_test` entries as the test set and the rest as the training set.  The
permutation is the output of the external RNG, so it is an input here. -/

/-- The `(train, test)` index pairs of `TimeSeriesSplit(n_splits=5)` on
`n` samples. -/
def tscvFolds (n : ℕ) : List (List ℕ × List ℕ) :=
  (List.range 5).map (fun k =>
    let ts := n / 6
    let start := n - (5 - k) * ts
    (List.range start, (List.range ts).map (fun j => j + start)))

/-- Shuffled `train_test_split`: given the RNG's `permutation` of the row
indices, the test set is its first `nTest` entries and the train set the
rest, returned as `(train, test)`. -/
def legacySplit (permutation : List ℕ) (nTest : ℕ) : List ℕ × List ℕ :=
  (permutation.drop nTest, permutation.take nTest)

/-! ### Model selection

`train_regression` (train_model.py lines 180-194) scans its candidate
regressors in insertion order — Ridge, RandomForest, GradientBoosting —
keeping the one whose validation MAE is strictly smaller than the best so
far; the candidates arrive here as `(name, mae)` pairs, the fitting and
prediction being external.  `main` (train_model.py lines 404-410) builds
a frame of per-backend `{mae, mape}` metrics in insertion order, sorts it
ascending by **mape** and declares `comparison.index[0]` the best model;
the embedding returns the earliest row attaining the minimal mape
(pandas' default sort gives an unspecified order among exact
ties; nothing proved below relies on tie order). -/

/-- The `best_mae` loop of `train_regression`. -/
def selectRegressionModel (candidates : List (String × ℚ)) : Option (String × ℚ) :=
  loopBest (fun c b => decide (c.2 < b.2)) candidates

/-- The cross-backend pick of `main`: entries are `(name, mae, mape)`. -/
def selectBestBackend (results : List (String × ℚ × ℚ)) : Option (String × ℚ × ℚ) :=
  loopBest (fun c b => decide (c.2.2 < b.2.2)) results

/-! ### Structural lemmas about the embedded loops -/

theorem ciLowerRaw_getD (predictions : List ℚ) (std confidence : ℚ) (i : ℕ)
    (hi : i < predictions.length) :
    (ciLowerRaw predictions std confidence).getD i 0 =
      predictions.getD i 0 - ciMargin std confidence := by
  unfold ciLowerRaw
  rw [List.getD_eq_getElem _ _ (by simpa using hi), List.getD_eq_getElem _ _ hi,
    List.getElem_map]

theorem ciUpper_getD (predictions : List ℚ) (std confidence : ℚ) (i : ℕ)
    (hi : i < predictions.length) :
    (ciUpper predictions std confidence).getD i 0 =
      predictions.getD i 0 + ciMargin std confidence := by
  unfold ciUpper
  rw [List.getD_eq_getElem _ _ (by simpa using hi), List.getD_eq_getElem _ _ hi,
    List.getElem_map]

theorem ci_lower_getD (predictions : List ℚ) (std confidence : ℚ) (i : ℕ)
    (hi : i < predictions.length) :
    (calculate_confidence_interval predictions std confidence).1.getD i 0 =
      max (predictions.getD i 0 - ciMargin std confidence) 0 := by
  unfold calculate_confidence_interval
  have hi' : i < (ciLowerRaw predictions std confidence).length := by
    simpa [ciLowerRaw] using hi
  rw [List.getD_eq_getElem _ _ (by simpa using hi'), List.getElem_map,
    ← List.getD_eq_getElem _ _ hi', ciLowerRaw_getD _ _ _ _ hi]

theorem ciZ_pos (confidence : ℚ) : 0 < ciZ confidence := by
  unfold ciZ
  split <;> norm_num

theorem loopBest_min_core {α : Type} (key : α → ℚ) (keep : α → α → Bool)
    (hk : ∀ c b, keep c b = true ↔ key c < key b) (l : List α) :
    ∀ b : α, ∃ r,
      l.foldl (fun acc c =>
        match acc with
        | none => some c
        | some b => if keep c b then some c else some b) (some b) = some r ∧
      (r = b ∨ r ∈ l) ∧ key r ≤ key b ∧ ∀ c ∈ l, key r ≤ key c := by
  induction l with
  | nil =>
    intro b
    exact ⟨b, rfl, Or.inl rfl, le_refl _, by simp⟩
  | cons c l ih =>
    intro b
    by_cases h : keep c b = true
    · obtain ⟨r, hr, hmem, hle, hall⟩ := ih c
      refine ⟨r, ?_, ?_, hle.trans ((hk c b).mp h).le, ?_⟩
      · simpa [List.foldl_cons, h] using hr
      · rcases hmem with h1 | h1
        · exact Or.inr (h1 ▸ List.mem_cons_self c l)
        · exact Or.inr (List.mem_cons_of_mem c h1)
      · intro x hx
        rcases List.mem_cons.mp hx with h1 | h1
        · exact h1 ▸ hle
        · exact hall x h1
    · obtain ⟨r, hr, hmem, hle, hall⟩ := ih b
      have hbc : key b ≤ key c := not_lt.mp (fun hlt => h ((hk c b).mpr hlt))
      refine ⟨r, ?_, ?_, hle, ?_⟩
      · simpa [List.foldl_cons, h] using hr
      · rcases hmem with h1 | h1
        · exact Or.inl h1
        · exact Or.inr (List.mem_cons_of_mem c h1)
      · intro x hx
        rcases List.mem_cons.mp hx with h1 | h1
        · exact h1 ▸ hle.trans hbc
        · exact hall x h1

/-- The running-minimum loop (any `keep` test deciding the strict key
comparison) returns an element of the list whose key is less than or
equal to every key in the list. -/
theorem loopBest_min {α : Type} (key : α → ℚ) (keep : α → α → Bool)
    (hk : ∀ c b, keep c b = true ↔ key c < key b) (l : List α) (r : α)
    (h : loopBest keep l = some r) :
    r ∈ l ∧ ∀ c ∈ l, key r ≤ key c := by
  cases l with
  | nil => simp [loopBest] at h
  | cons a l =>
    obtain ⟨s, hs, hmem, hle, hall⟩ := loopBest_min_core key keep hk l a
    replace h : l.foldl (fun acc c =>
        match acc with
        | none => some c
        | some b => if keep c b then some c else some b) (some a) = some r := h
    rw [hs] at h
    obtain rfl : s = r := Option.some_injective _ h
    refine ⟨?_, ?_⟩
    · rcases hmem with h1 | h1
      · exact h1 ▸ List.mem_cons_self a l
      · exact List.mem_cons_of_mem a h1
    · intro c hc
      rcases List.mem_cons.mp hc with h1 | h1
      · exact h1 ▸ hle
      · exact hall c h1

/-- If the head already has a key less than or equal to every later
candidate, the loop keeps the head: ties go to the earliest candidate. -/
theorem loopBest_min_first {α : Type} (key : α → ℚ) (keep : α → α → Bool)
    (hk : ∀ c b, keep c b = true ↔ key c < key b) (a : α) (l : List α)
    (h : ∀ c ∈ l, key a ≤ key c) :
    loopBest keep (a :: l) = some a := by
  show l.foldl (fun acc c =>
      match acc with
      | none => some c
      | some b => if keep c b then some c else some b) (some a) = some a
  induction l with
  | nil => rfl
  | cons c l ih =>
    rw [List.foldl_cons]
    have hc : ¬ (keep c a = true) := fun hkeep =>
      absurd ((hk c a).mp hkeep) (not_lt.mpr (h c (List.mem_cons_self c l)))
    show l.foldl _ (if keep c a then some c else some a) = some a
    rw [if_neg hc]
    exact ih (fun x hx => h x (List.mem_cons_of_mem c hx))

/-- The running-maximum loop (Python `max` with a key) returns an element
whose key is greater than or equal to every key in the list. -/
theorem loopBest_max {α : Type} (key : α → ℚ) (keep : α → α → Bool)
    (hk : ∀ c b, keep c b = true ↔ key b < key c) (l : List α) (r : α)
    (h : loopBest keep l = some r) :
    r ∈ l ∧ ∀ c ∈ l, key c ≤ key r := by
  have hk2 : ∀ c b, keep c b = true ↔ (fun x => -key x) c < (fun x => -key x) b := by
    intro c b
    rw [hk c b]
    exact (neg_lt_neg_iff).symm
  obtain ⟨hmem, hall⟩ := loopBest_min (fun x => -key x) keep hk2 l r h
  exact ⟨hmem, fun c hc => by have := hall c hc; simpa using this⟩

theorem loopBest_isSome_core {α : Type} (keep : α → α → Bool) (l : List α) :
    ∀ b : α, ∃ r,
      l.foldl (fun acc c =>
        match acc with
        | none => some c
        | some b => if keep c b then some c else some b) (some b) = some r := by
  induction l with
  | nil => exact fun b => ⟨b, rfl⟩
  | cons c l ih =>
    intro b
    by_cases h : keep c b
    · obtain ⟨r, hr⟩ := ih c
      exact ⟨r, by simpa [List.foldl_cons, h] using hr⟩
    · obtain ⟨r, hr⟩ := ih b
      exact ⟨r, by simpa [List.foldl_cons, h] using hr⟩

/-- A non-empty candidate list always yields a best element. -/
theorem loopBest_isSome {α : Type} (keep : α → α → Bool) (l : List α)
    (h : l ≠ []) : ∃ r, loopBest keep l = some r := by
  cases l with
  | nil => exact absurd rfl h
  | cons a l =>
    obtain ⟨r, hr⟩ := loopBest_isSome_core keep l a
    exact ⟨r, by rw [loopBest, List.foldl_cons]; exact hr⟩


theorem getD_last_append (l1 l2 : List ℚ) (h : l2 ≠ []) :
    (l1 ++ l2).getD ((l1 ++ l2).length - 1) 0 = l2.getD (l2.length - 1) 0 := by
  have h2 : 0 < l2.length := List.length_pos.mpr h
  have hlt : (l1 ++ l2).length - 1 < (l1 ++ l2).length := by
    simp
    omega
  have hlt2 : l2.length - 1 < l2.length := by omega
  rw [List.getD_eq_getElem _ _ hlt, List.getD_eq_getElem _ _ hlt2]
  rw [List.getElem_append_right (by simp; omega)]
  congr 1
  simp
  omega

theorem getD_take_map {α β : Type} [Inhabited α] (f : α → β) (l : List α) (j k : ℕ) (d : β)
    (hk : k < j) (h2 : j ≤ l.length) :
    ((l.take j).map f).getD k d = f (l.getD k default) := by
  have hk1 : k < ((l.take j).map f).length := by
    simp [List.length_take]
    omega
  have hk2 : k < l.length := by omega
  rw [List.getD_eq_getElem _ _ hk1, List.getElem_map, List.getElem_take,
    List.getD_eq_getElem _ _ hk2]

theorem filterMap_range_shift {α : Type} (f : ℕ → α) (n : ℕ) :
    (List.range n).filterMap (fun i => if 3 ≤ i then some (f i) else none) =
      (List.range (n - 3)).map (fun j => f (j + 3)) := by
  induction n with
  | zero => simp
  | succ n ih =>
    rw [List.range_succ, List.filterMap_append, ih]
    by_cases h : 3 ≤ n
    · have hn : n + 1 - 3 = (n - 3) + 1 := by omega
      have hn2 : n - 3 + 3 = n := by omega
      rw [hn, List.range_succ, List.map_append]
      simp [h, hn2]
    · have hn : n + 1 - 3 = 0 := by omega
      have hn2 : n - 3 = 0 := by omega
      simp [hn, hn2, h]

theorem load_and_prepare_data_eq (cal : Calendar) (recs : List DailyRecord) :
    load_and_prepare_data cal recs =
      (List.range (recs.length - 3)).map (fun j => mkFeatureRow cal recs (j + 3)) :=
  filterMap_range_shift _ _

theorem lgbRun_length (model : List ℚ → ℚ) (features : List String) (cal : Calendar)
    (sales : List ℚ) (lastDate : ℤ) :
    ∀ (fuel i : ℕ) (preds : List ℚ),
      (lgbRun model features cal sales lastDate fuel i preds).length = fuel := by
  intro fuel
  induction fuel with
  | zero => intro i preds; rfl
  | succ fuel ih =>
    intro i preds
    rw [lgbRun, List.length_cons, ih]

theorem lgbRun_dates (model : List ℚ → ℚ) (features : List String) (cal : Calendar)
    (sales : List ℚ) (lastDate : ℤ) :
    ∀ (fuel i : ℕ) (preds : List ℚ),
      (lgbRun model features cal sales lastDate fuel i preds).map (fun s => s.date) =
        (List.range fuel).map (fun j => lastDate + ((i + j + 1 : ℕ) : ℤ)) := by
  intro fuel
  induction fuel with
  | zero => intro i preds; rfl
  | succ fuel ih =>
    intro i preds
    rw [lgbRun, List.map_cons, ih, List.range_succ_eq_map, List.map_cons, List.map_map]
    refine congrArg₂ _ (by norm_num) ?_
    refine List.map_congr_left (fun j hj => ?_)
    have : i + 1 + j = i + (j + 1) := by omega
    simp [Function.comp, this]

theorem lgbRun_pred_nonneg (model : List ℚ → ℚ) (features : List String) (cal : Calendar)
    (sales : List ℚ) (lastDate : ℤ) :
    ∀ (fuel i : ℕ) (preds : List ℚ) (s : LgbStep),
      s ∈ lgbRun model features cal sales lastDate fuel i preds → 0 ≤ s.pred := by
  intro fuel
  induction fuel with
  | zero => intro i preds s hs; simp [lgbRun] at hs
  | succ fuel ih =>
    intro i preds s hs
    rw [lgbRun] at hs
    rcases List.mem_cons.mp hs with h | h
    · rw [h]
      exact le_max_left 0 _
    · exact ih _ _ _ h

theorem fnRun_length (model : List ℚ → ℚ) (scaler : List ℚ → List ℚ) (cal : Calendar)
    (featureCols : List String) (startDate : ℤ) :
    ∀ (fuel i : ℕ) (buf : List ℚ),
      (fnRun model scaler cal featureCols startDate fuel i buf).length = fuel := by
  intro fuel
  induction fuel with
  | zero => intro i buf; rfl
  | succ fuel ih =>
    intro i buf
    rw [fnRun, List.length_cons, ih]

/-- The step recorded at position `j` of the `forecast_next_days` loop
reads its features from the private buffer extended by the predictions of
the earlier steps. -/
theorem fnRun_getD (model : List ℚ → ℚ) (scaler : List ℚ → List ℚ) (cal : Calendar)
    (featureCols : List String) (startDate : ℤ) :
    ∀ (j fuel i : ℕ) (buf : List ℚ), j < fuel →
      (fnRun model scaler cal featureCols startDate fuel i buf).getD j default =
        (fun row x => (⟨row, x, model (scaler x)⟩ : FnStep))
          (fnRow cal
            (buf ++ ((fnRun model scaler cal featureCols startDate fuel i buf).take j).map
              (fun st => st.pred))
            (startDate + ((i + j : ℕ) : ℤ)) featureCols)
          (featureCols.map (fun c =>
            (lookupQ (fnRow cal
              (buf ++ ((fnRun model scaler cal featureCols startDate fuel i buf).take j).map
                (fun st => st.pred))
              (startDate + ((i + j : ℕ) : ℤ)) featureCols) c).getD 0)) := by
  intro j
  induction j with
  | zero =>
    intro fuel i buf hj
    cases fuel with
    | zero => omega
    | succ fuel =>
      rw [fnRun]
      simp
  | succ j ih =>
    intro fuel i buf hj
    cases fuel with
    | zero => omega
    | succ fuel =>
      rw [fnRun]
      have hj2 : j < fuel := by omega
      have hstep := ih fuel (i + 1) (buf ++ [model (scaler (featureCols.map (fun c =>
        (lookupQ (fnRow cal buf (startDate + (i : ℤ)) featureCols) c).getD 0)))]) hj2
      simp only [List.getD_cons_succ, List.take_succ_cons, List.map_cons]
      rw [hstep]
      have harg : i + 1 + j = i + (j + 1) := by omega
      rw [harg, List.append_assoc]
      rfl

/-- The step recorded at position `j` of the `forecast_with_lightgbm`
loop builds its feature dict from the predictions of the earlier steps
and projects it through the metadata feature names. -/
theorem lgbRun_getD (model : List ℚ → ℚ) (features : List String) (cal : Calendar)
    (sales : List ℚ) (lastDate : ℤ) :
    ∀ (j fuel i : ℕ) (preds : List ℚ), j < fuel →
      (lgbRun model features cal sales lastDate fuel i preds).getD j default =
        (fun x => (⟨lastDate + ((i + j + 1 : ℕ) : ℤ), x, max 0 (model x)⟩ : LgbStep))
          (lgbX features (lgbFeatureValues cal sales lastDate (i + j)
            (preds ++ ((lgbRun model features cal sales lastDate fuel i preds).take j).map
              (fun s => s.pred)))) := by
  intro j
  induction j with
  | zero =>
    intro fuel i preds hj
    cases fuel with
    | zero => omega
    | succ fuel =>
      rw [lgbRun]
      simp
  | succ j ih =>
    intro fuel i preds hj
    cases fuel with
    | zero => omega
    | succ fuel =>
      rw [lgbRun]
      have hj2 : j < fuel := by omega
      have hstep := ih fuel (i + 1) (preds ++
        [max 0 (model (lgbX features (lgbFeatureValues cal sales lastDate i preds)))]) hj2
      simp only [List.getD_cons_succ, List.take_succ_cons, List.map_cons]
      rw [hstep]
      have harg : i + 1 + j = i + (j + 1) := by omega
      rw [harg, List.append_assoc]
      rfl

/-- In the `forecast_with_lightgbm` feature dict of a step `i ≠ 0`, the
`sales_lag_1` entry reads `predictions[-1]` (predict_custom.py
line 320). -/
theorem lookupQ_lgbFV_lag1 (cal : Calendar) (sales : List ℚ) (lastDate : ℤ) (i : ℕ)
    (preds : List ℚ) (hs : 0 < sales.length) (hi : i ≠ 0) :
    lookupQ (lgbFeatureValues cal sales lastDate i preds) "sales_lag_1" =
      some (preds.getD (preds.length - 1) 0) := by
  rw [lgbFeatureValues, if_pos hs]
  simp [lookupQ, List.find?, hi]

/-- In the `forecast_with_lightgbm` feature dict of a step `i ≥ 2` with
at least two predictions made, the `sales_lag_2` entry reads
`predictions[-2]` (predict_custom.py line 323). -/
theorem lookupQ_lgbFV_lag2 (cal : Calendar) (sales : List ℚ) (lastDate : ℤ) (i : ℕ)
    (preds : List ℚ) (hs : 0 < sales.length) (hi : ¬ i < 2) (hp : 1 < preds.length) :
    lookupQ (lgbFeatureValues cal sales lastDate i preds) "sales_lag_2" =
      some (preds.getD (preds.length - 2) 0) := by
  rw [lgbFeatureValues, if_pos hs]
  simp [lookupQ, List.find?, hi, hp]

/-- In the `forecast_with_lightgbm` feature dict of a step `i ≥ 3`, the
`sales_lag_3` entry falls back to the historical mean of the observed
series (predict_custom.py line 326) — it never reads a prediction. -/
theorem lookupQ_lgbFV_lag3 (cal : Calendar) (sales : List ℚ) (lastDate : ℤ) (i : ℕ)
    (preds : List ℚ) (hs : 0 < sales.length) (hi : ¬ i < 3) :
    lookupQ (lgbFeatureValues cal sales lastDate i preds) "sales_lag_3" =
      some (listMean sales) := by
  rw [lgbFeatureValues, if_pos hs]
  simp [lookupQ, List.find?, hi]

/-- The `sales_rolling_7` entry of every `forecast_with_lightgbm` feature
dict is the mean of the last 7 **observed** values (predict_custom.py
line 332), independent of the step and of the predictions made so far. -/
theorem lookupQ_lgbFV_rolling7 (cal : Calendar) (sales : List ℚ) (lastDate : ℤ) (i : ℕ)
    (preds : List ℚ) (hs : 0 < sales.length) :
    lookupQ (lgbFeatureValues cal sales lastDate i preds) "sales_rolling_7" =
      some (listMean (lastN 7 sales)) := by
  rw [lgbFeatureValues, if_pos hs]
  simp [lookupQ, List.find?]

/-! ## Claims -/

/-- C1: at inference time a feature name listed in the persisted metadata
but absent from the live feature dict is silently read as 0, and
prediction proceeds — no error is raised.  With metadata feature list
`["foo"]` (a name no feature builder produces), `forecast_with_lightgbm`
feeds the model the vector `[0]` and returns its (clamped) output, and
`generate_predictions` likewise builds the vector `[0]`.  This evaluates
the code at the failing input of the claim: the spec mandates a hard
FeatureMismatchError here instead. -/
theorem C1_missing_feature_silently_zero :
    lgbX ["foo"] (lgbFeatureValues trivCal [100] 0 0 []) = [0] ∧
    forecast_with_lightgbm (fun x => x.sum + 3) ["foo"] trivCal [100] 0 1 = [(1, 3)] ∧
    genPredX trivCal [] 0 ["foo"] 1 = [0] := by
  refine ⟨?_, ?_, ?_⟩
  · simp [lgbX, lgbFeatureValues, lookupQ, List.find?, trivCal]
  · simp [forecast_with_lightgbm, lgbRun, lgbX, lgbFeatureValues, lookupQ, List.find?, trivCal]
  · simp [genPredX, genPredFeatures, lookupQ, List.find?, trivCal]

/-- C4 counterexample: the legacy trainers validate with a shuffled
`train_test_split`.  The split is a function of the RNG permutation; at
the concrete permutation `[0,…,9]` (with `n_test = 2`) the training set is
`[2,…,9]` and the test set `[0, 1]`, so training index 5 does not precede
test index 0 in time — the claimed fold invariant is false for this
split. -/
theorem C4_counterexample :
    5 ∈ (legacySplit (List.range 10) 2).1 ∧ 0 ∈ (legacySplit (List.range 10) 2).2 ∧
    ¬ (5 : ℕ) < 0 := by
  decide

/-- C4 (amended): the `TimeSeriesSplit(n_splits=5)` cross-validation of
`train_lightgbm_model` is chronological — in every fold, every training
index strictly precedes every test index; the shuffled 80/20 holdout of
the legacy and TF trainers does not have this property. -/
theorem C4_tscv_chronological (n : ℕ) :
    ∀ fold ∈ tscvFolds n, ∀ i ∈ fold.1, ∀ j ∈ fold.2, i < j := by
  intro fold hfold i hi j hj
  simp only [tscvFolds, List.mem_map, List.mem_range] at hfold
  obtain ⟨k, hk, rfl⟩ := hfold
  simp only [List.mem_range] at hi
  simp only [List.mem_map, List.mem_range] at hj
  obtain ⟨a, ha, rfl⟩ := hj
  omega

/-- C4 witness: fold 0 of `TimeSeriesSplit` on 12 samples trains on
`[0, 1]` and tests on `[2, 3]`; index 0 precedes index 2. -/
theorem C4_tscv_witness : (([0, 1], [2, 3]) ∈ tscvFolds 12) ∧ (0 : ℕ) < 2 :=
  ⟨by decide, C4_tscv_chronological 12 ([0, 1], [2, 3]) (by decide) 0 (by decide) 2 (by decide)⟩

/-- C5 counterexample: on the series `[0,0,0,0,1,3]` with threshold 2 the
code's detector (pandas sample standard deviation, ddof = 1) flags
nothing, while the population-σ rule of the claim flags index 5 (value 3,
a spike): the claim's "flagged iff population |z| > T" is false on the
code. -/
theorem C5_counterexample :
    detect_anomalies [0, 0, 0, 0, 1, 3] 2 = [] ∧
    detectAnomaliesSpecPop [0, 0, 0, 0, 1, 3] 2 = [⟨5, 3, true⟩] := by
  constructor
  · norm_num [detect_anomalies, anSS, anMean, listMean, List.range_succ]
  · norm_num [detectAnomaliesSpecPop, anSS, anMean, listMean, List.range_succ,
      List.filterMap_cons, List.getElem?_cons_succ, List.getElem?_cons_zero]

/-- C5 (amended): `detect_anomalies` computes μ and the **sample**
standard deviation (ddof = 1) over the full series; it returns the empty
set whenever the sum of squared deviations is 0 (σ = 0), a row is flagged
iff `(n-1)·(value-μ)² > T²·SS` — i.e. sample |z| > T — with direction
spike exactly when value > μ, and every flagged row is also flagged by
the population-σ rule the claim states (the converse fails). -/
theorem C5_sample_std_detector :
    (∀ (xs : List ℚ) (T : ℚ), anSS xs = 0 → detect_anomalies xs T = []) ∧
    (∀ (xs : List ℚ) (T : ℚ) (r : AnomalyRow), r ∈ detect_anomalies xs T →
      r ∈ detectAnomaliesSpecPop xs T) ∧
    (∀ (xs : List ℚ) (T : ℚ) (r : AnomalyRow), 2 ≤ xs.length → anSS xs ≠ 0 →
      (r ∈ detect_anomalies xs T ↔
        r.idx < xs.length ∧ r.value = xs.getD r.idx 0 ∧
        ((xs.length : ℚ) - 1) * (r.value - anMean xs)^2 > T^2 * anSS xs ∧
        r.spike = decide (anMean xs < r.value))) := by
  refine ⟨?_, ?_, ?_⟩
  · intro xs T h
    rw [detect_anomalies]
    by_cases h1 : xs.length < 2
    · rw [if_pos h1]
    · rw [if_neg h1, if_pos h]
  · intro xs T r hr
    rw [detect_anomalies] at hr
    by_cases h1 : xs.length < 2
    · rw [if_pos h1] at hr
      exact absurd hr (List.not_mem_nil r)
    rw [if_neg h1] at hr
    by_cases h2 : anSS xs = 0
    · rw [if_pos h2] at hr
      exact absurd hr (List.not_mem_nil r)
    rw [if_neg h2] at hr
    obtain ⟨i, hi, hsome⟩ := List.mem_filterMap.mp hr
    simp only [Option.ite_none_right_eq_some] at hsome
    obtain ⟨hcond, hrow⟩ := hsome
    rw [detectAnomaliesSpecPop, if_neg (by omega : ¬ xs.length = 0), if_neg h2]
    refine List.mem_filterMap.mpr ⟨i, hi, ?_⟩
    simp only [Option.ite_none_right_eq_some]
    refine ⟨?_, hrow⟩
    have hd : (0 : ℚ) ≤ (xs.getD i 0 - anMean xs)^2 := sq_nonneg _
    have hle : ((xs.length : ℚ) - 1) * (xs.getD i 0 - anMean xs)^2 ≤
        (xs.length : ℚ) * (xs.getD i 0 - anMean xs)^2 := by
      apply mul_le_mul_of_nonneg_right _ hd
      linarith
    exact lt_of_lt_of_le hcond hle
  · intro xs T r h1 h2
    obtain ⟨i0, v0, sp0⟩ := r
    rw [detect_anomalies, if_neg (by omega : ¬ xs.length < 2), if_neg h2]
    simp only [List.mem_filterMap, List.mem_range, Option.ite_none_right_eq_some,
      Option.some.injEq, AnomalyRow.mk.injEq]
    constructor
    · rintro ⟨i, hi, hcond, rfl, rfl, rfl⟩
      exact ⟨hi, rfl, hcond, rfl⟩
    · rintro ⟨hidx, hv, hcond, hsp⟩
      rw [hv] at hsp hcond
      exact ⟨i0, hidx, hcond, rfl, hv.symm, hsp.symm⟩

/-- C5 witness: a constant series has zero sample variance, and the
detector returns the empty set on it. -/
theorem C5_witness : detect_anomalies [5, 5] 2 = [] :=
  C5_sample_std_detector.1 [5, 5] 2 (by norm_num [anSS, anMean, listMean])

/-- C6 counterexample: with dispersion 0 and the (negative) prediction
`-1`, the returned interval is `[0, -1]` — the clamped lower bound 0 is
not the point prediction, so the interval does not collapse to the point
prediction as the claim states. -/
theorem C6_counterexample :
    calculate_confidence_interval [-1] 0 (95/100) = ([0], [-1]) ∧ (0 : ℚ) ≠ -1 := by
  constructor
  · norm_num [calculate_confidence_interval, ciLowerRaw, ciUpper, ciMargin, ciZ]
  · norm_num

/-- C6 (amended): for every prediction vector and dispersion, the interval
is symmetric before clamping (`upper - p = p - raw lower`), the returned
lower bound is ≥ 0 after clamping, and when the dispersion is 0 the margin
is 0 and the interval collapses to the point prediction **for
non-negative predictions** (for a negative prediction the clamped lower
bound is 0 while the upper bound equals the prediction). -/
theorem C6_interval_symmetry_clamp (preds : List ℚ) (std conf : ℚ) (i : ℕ)
    (hi : i < preds.length) :
    (ciUpper preds std conf).getD i 0 - preds.getD i 0 =
      preds.getD i 0 - (ciLowerRaw preds std conf).getD i 0 ∧
    0 ≤ (calculate_confidence_interval preds std conf).1.getD i 0 ∧
    (std = 0 → ciMargin std conf = 0 ∧
      (0 ≤ preds.getD i 0 →
        (calculate_confidence_interval preds std conf).1.getD i 0 = preds.getD i 0 ∧
        (calculate_confidence_interval preds std conf).2.getD i 0 = preds.getD i 0)) := by
  refine ⟨?_, ?_, ?_⟩
  · rw [ciUpper_getD _ _ _ _ hi, ciLowerRaw_getD _ _ _ _ hi]
    ring
  · rw [ci_lower_getD _ _ _ _ hi]
    exact le_max_right _ _
  · intro h0
    have hm : ciMargin std conf = 0 := by rw [ciMargin, h0, mul_zero]
    refine ⟨hm, fun hp => ⟨?_, ?_⟩⟩
    · rw [ci_lower_getD _ _ _ _ hi, hm, sub_zero, max_eq_left hp]
    · show (ciUpper preds std conf).getD i 0 = _
      rw [ciUpper_getD _ _ _ _ hi, hm, add_zero]

/-- C6 witness: at predictions `[3]`, dispersion 0, confidence 0.95, the
symmetry holds and the interval collapses onto the prediction 3. -/
theorem C6_witness :
    (ciUpper [3] 0 (95/100)).getD 0 0 - ([3] : List ℚ).getD 0 0 =
      ([3] : List ℚ).getD 0 0 - (ciLowerRaw [3] 0 (95/100)).getD 0 0 ∧
    (calculate_confidence_interval [3] 0 (95/100)).1.getD 0 0 = ([3] : List ℚ).getD 0 0 := by
  have h := C6_interval_symmetry_clamp [3] 0 (95/100) 0 (by norm_num)
  exact ⟨h.1, ((h.2.2 rfl).2 (by norm_num [List.getD])).1⟩

/-- C8 counterexample: with candidate backends ARIMA (MAE 50, MAPE 30) and
Regression (MAE 80, MAPE 10), `main` sorts the comparison by MAPE and
picks Regression although its MAE 80 is not the minimum MAE 50: the
model selector does not pick by minimum MAE across backends. -/
theorem C8_counterexample :
    selectBestBackend [("ARIMA", 50, 30), ("Regression", 80, 10)] =
      some ("Regression", 80, 10) ∧ (50 : ℚ) < 80 := by
  constructor
  · norm_num [selectBestBackend, loopBest]
  · norm_num

/-- C8 (amended): inside `train_regression` the candidate with minimum
validation MAE is picked and, because only a strictly smaller MAE
displaces the running best, the earliest candidate wins ties; the
cross-backend comparison in `main`, however, picks the backend with the
minimum **MAPE**, not MAE. -/
theorem C8_selection_criteria :
    (∀ (cands : List (String × ℚ)) (r : String × ℚ), selectRegressionModel cands = some r →
      r ∈ cands ∧ ∀ c ∈ cands, r.2 ≤ c.2) ∧
    (∀ (a : String × ℚ) (cands : List (String × ℚ)), (∀ c ∈ cands, a.2 ≤ c.2) →
      selectRegressionModel (a :: cands) = some a) ∧
    (∀ (results : List (String × ℚ × ℚ)) (r : String × ℚ × ℚ),
      selectBestBackend results = some r → r ∈ results ∧ ∀ c ∈ results, r.2.2 ≤ c.2.2) := by
  refine ⟨?_, ?_, ?_⟩
  · intro cands r h
    rw [selectRegressionModel] at h
    refine loopBest_min (fun p => p.2) _ ?_ cands r h
    intro c b
    simp
  · intro a cands h
    rw [selectRegressionModel]
    refine loopBest_min_first (fun p => p.2) _ ?_ a cands h
    intro c b
    simp
  · intro results r h
    rw [selectBestBackend] at h
    refine loopBest_min (fun p => p.2.2) _ ?_ results r h
    intro c b
    simp

/-- C8 witness: with regression candidates of MAE 5 and 7 in evaluation
order, the loop keeps the first (MAE 5) candidate. -/
theorem C8_witness :
    selectRegressionModel [("Ridge", 5), ("RandomForest", 7)] = some ("Ridge", 5) :=
  C8_selection_criteria.2.1 ("Ridge", 5) [("RandomForest", 7)] (by
    rintro c hc
    rw [List.mem_singleton] at hc
    rw [hc]
    norm_num)

/-- C10: for predictions that are all ≥ 0 and a non-negative dispersion,
every returned bound pair brackets its prediction
(`lower[i] ≤ p[i] ≤ upper[i]`); and the non-negativity premise is needed:
at prediction `-100` with dispersion 1 the clamped lower bound 0 exceeds
the upper bound. -/
theorem C10_bounds_bracket :
    (∀ (preds : List ℚ) (std conf : ℚ) (i : ℕ),
      (∀ p ∈ preds, 0 ≤ p) → 0 ≤ std → i < preds.length →
      (calculate_confidence_interval preds std conf).1.getD i 0 ≤ preds.getD i 0 ∧
      preds.getD i 0 ≤ (calculate_confidence_interval preds std conf).2.getD i 0) ∧
    (calculate_confidence_interval [-100] 1 (95/100)).2.getD 0 0 <
      (calculate_confidence_interval [-100] 1 (95/100)).1.getD 0 0 := by
  constructor
  · intro preds std conf i hp hstd hi
    have hm : 0 ≤ ciMargin std conf := mul_nonneg (ciZ_pos conf).le hstd
    have hpi : 0 ≤ preds.getD i 0 := by
      rw [List.getD_eq_getElem _ _ hi]
      exact hp _ (List.getElem_mem _)
    constructor
    · rw [ci_lower_getD _ _ _ _ hi]
      exact max_le (by linarith) hpi
    · show _ ≤ (ciUpper preds std conf).getD i 0
      rw [ciUpper_getD _ _ _ _ hi]
      linarith
  · norm_num [calculate_confidence_interval, ciLowerRaw, ciUpper, ciMargin, ciZ]

/-- C10 witness: at predictions `[2]`, dispersion 1, confidence 0.95 the
bounds bracket the prediction. -/
theorem C10_witness :
    (calculate_confidence_interval [2] 1 (95/100)).1.getD 0 0 ≤ ([2] : List ℚ).getD 0 0 ∧
    ([2] : List ℚ).getD 0 0 ≤ (calculate_confidence_interval [2] 1 (95/100)).2.getD 0 0 :=
  C10_bounds_bracket.1 [2] 1 (95/100) 0 (by
    rintro p hp
    rw [List.mem_singleton] at hp
    rw [hp]
    norm_num) (by norm_num) (by norm_num)

/-- C3 counterexample: on the ascending five-record series `recsC3` the
feature-preparation step yields only 2 feature rows, not 5 — the first
three rows, whose lag features would need a fallback, are dropped by
`dropna()` instead. -/
theorem C3_counterexample :
    recsC3.length = 5 ∧ (load_and_prepare_data trivCal recsC3).length = 2 ∧ (2 : ℕ) ≠ 5 := by
  refine ⟨rfl, ?_, by norm_num⟩
  norm_num [load_and_prepare_data, recsC3, List.range_succ, List.filterMap_cons]

/-- C3 (amended): for every ascending, duplicate-free record sequence the
feature-building step produces `|S| - min(3, |S|)` rows — the early rows
with undefined lags are dropped, not filled with a fallback — and output
row `j` describes input record `j + 3`, its `sales_lag_1` being the sales
of record `j + 2` and its `sales_lag_3` the sales of record `j`. -/
theorem C3_feature_rows (cal : Calendar) (recs : List DailyRecord)
    (_hsorted : List.Pairwise (fun a b => a.day < b.day) recs) :
    (load_and_prepare_data cal recs).length = recs.length - min 3 recs.length ∧
    ∀ j, j < (load_and_prepare_data cal recs).length →
      ((load_and_prepare_data cal recs).getD j default).day = (recs.getD (j + 3) default).day ∧
      ((load_and_prepare_data cal recs).getD j default).sales_lag_1 =
        (recs.getD (j + 2) default).total_sales ∧
      ((load_and_prepare_data cal recs).getD j default).sales_lag_3 =
        (recs.getD j default).total_sales := by
  rw [load_and_prepare_data_eq]
  constructor
  · rw [List.length_map, List.length_range]
    omega
  · intro j hj
    rw [List.length_map, List.length_range] at hj
    have hj2 : j < ((List.range (recs.length - 3)).map
        (fun j => mkFeatureRow cal recs (j + 3))).length := by
      simp only [List.length_map, List.length_range]
      exact hj
    rw [List.getD_eq_getElem _ _ hj2, List.getElem_map, List.getElem_range]
    simp only [mkFeatureRow]
    have e1 : j + 3 - 1 = j + 2 := by omega
    have e3 : j + 3 - 3 = j := by omega
    rw [e1, e3]
    exact ⟨trivial, rfl, rfl⟩

/-- C3 witness: on `recsC3` (5 ascending records) the prepared frame has
`5 - min 3 5 = 2` rows and row 0's `sales_lag_1` is record 2's sales. -/
theorem C3_witness :
    (load_and_prepare_data trivCal recsC3).length = recsC3.length - min 3 recsC3.length ∧
    ((load_and_prepare_data trivCal recsC3).getD 0 default).sales_lag_1 =
      (recsC3.getD 2 default).total_sales := by
  have h := C3_feature_rows trivCal recsC3 (by decide)
  refine ⟨h.1, ?_⟩
  have h0 : 0 < (load_and_prepare_data trivCal recsC3).length := by
    rw [h.1]
    norm_num [recsC3]
  exact (h.2 0 h0).2.1

/-- C7 counterexample: `generate_predictions` appends the raw model output
without clamping; with a backend constantly predicting -5 the returned
`predicted_sales` is -5 < 0 — so, on this cited forecaster, negative
backend predictions are not clamped to zero. -/
theorem C7_counterexample :
    generate_predictions (fun _ => -5) trivCal [] 0 ["sales_lag_1"] 1 = [(1, -5)] ∧
    ¬ (0 : ℚ) ≤ -5 := by
  constructor
  · simp [generate_predictions, List.range_succ]
  · norm_num

/-- C7 (amended): for every non-empty history, `forecast_with_lightgbm`
returns exactly `days` points, whose dates are `last+1 … last+days` in
strictly increasing order, and every predicted value is ≥ 0 because
`max(0, ·)` clamps each step; `generate_predictions` returns its
backend's output unclamped. -/
theorem C7_forecast_shape (model : List ℚ → ℚ) (features : List String) (cal : Calendar)
    (sales : List ℚ) (lastDate : ℤ) (days : ℕ) (h : sales ≠ []) :
    (forecast_with_lightgbm model features cal sales lastDate days).length = days ∧
    (forecast_with_lightgbm model features cal sales lastDate days).map (fun p => p.1) =
      (List.range days).map (fun j => lastDate + ((j + 1 : ℕ) : ℤ)) ∧
    ((forecast_with_lightgbm model features cal sales lastDate days).map
      (fun p => p.1)).Pairwise (· < ·) ∧
    ∀ p ∈ forecast_with_lightgbm model features cal sales lastDate days, 0 ≤ p.2 := by
  rw [forecast_with_lightgbm, if_neg h]
  have hcomp : ((fun p => p.1) ∘ (fun s : LgbStep => (s.date, s.pred))) =
      fun s : LgbStep => s.date := rfl
  have hdates : (lgbRun model features cal sales lastDate days 0 []).map
      (fun s => s.date) = (List.range days).map (fun j => lastDate + ((0 + j + 1 : ℕ) : ℤ)) :=
    lgbRun_dates model features cal sales lastDate days 0 []
  have hdates2 : ((lgbRun model features cal sales lastDate days 0 []).map
      (fun s => (s.date, s.pred))).map (fun p => p.1) =
      (List.range days).map (fun j => lastDate + ((j + 1 : ℕ) : ℤ)) := by
    rw [List.map_map, hcomp, hdates]
    refine List.map_congr_left (fun j hj => ?_)
    norm_num
  refine ⟨?_, hdates2, ?_, ?_⟩
  · rw [List.length_map, lgbRun_length]
  · rw [hdates2]
    refine List.Pairwise.map _ (fun a b hab => ?_) (List.pairwise_lt_range days)
    push_cast
    omega
  · intro p hp
    obtain ⟨s, hs, rfl⟩ := List.mem_map.mp hp
    exact lgbRun_pred_nonneg model features cal sales lastDate days 0 [] s hs

/-- C7 witness: a 2-day forecast over the one-point history `[100]`
yields exactly 2 points. -/
theorem C7_witness :
    (forecast_with_lightgbm (fun _ => 1) [] trivCal [100] 0 2).length = 2 :=
  (C7_forecast_shape (fun _ => 1) [] trivCal [100] 0 2 (by simp)).1

/-- C9: for every non-empty series `analyze_seasonal_patterns` returns a
result, the returned `best_day` has a per-weekday mean ≥ the mean of every
other (present) weekday, and `weekend_boost` is 0 whenever the weekday
average is 0 (no division error). -/
theorem C9_seasonal_best_boost (cal : Calendar) (rows : List (ℤ × ℚ)) :
    (rows ≠ [] → analyze_seasonal_patterns cal rows ≠ none) ∧
    (∀ pat, analyze_seasonal_patterns cal rows = some pat →
      (∀ p ∈ pat.weeklyPattern, p.2 ≤ pat.bestDay.2) ∧
      (pat.weekdayAvg = 0 → pat.weekendBoost = 0)) := by
  constructor
  · intro hrows
    rw [analyze_seasonal_patterns, if_neg hrows]
    have hgne : seasonalGroups cal rows ≠ [] := by
      intro hg
      obtain ⟨r, rest, rfl⟩ := List.exists_cons_of_ne_nil hrows
      have hall : ∀ m, m < 7 → m ∈ dowsAlphabetical := by decide
      have hwd : cal.weekday r.1 ∈ dowsAlphabetical := hall _ (cal.weekday_lt r.1)
      have hsd : salesOfDow cal (r :: rest) (cal.weekday r.1) ≠ [] := by
        intro he
        have hmem : r.2 ∈ salesOfDow cal (r :: rest) (cal.weekday r.1) := by
          refine List.mem_map.mpr ⟨r, ?_, rfl⟩
          refine List.mem_filter.mpr ⟨List.mem_cons_self _ _, ?_⟩
          simp
        rw [he] at hmem
        exact List.not_mem_nil _ hmem
      have hnone := (List.filterMap_eq_nil_iff.mp hg) _ hwd
      rw [if_neg hsd] at hnone
      exact Option.noConfusion hnone
    obtain ⟨best, hbest⟩ := loopBest_isSome _ _ hgne
    obtain ⟨worst, hworst⟩ := loopBest_isSome _ _ hgne
    rw [hbest, hworst]
    simp
  · intro pat h
    rw [analyze_seasonal_patterns] at h
    by_cases hrows : rows = []
    · rw [if_pos hrows] at h
      exact absurd h (by simp)
    rw [if_neg hrows] at h
    rcases hbest : loopBest (fun p b => decide (b.2 < p.2)) (seasonalGroups cal rows) with
      _ | best
    · rw [hbest] at h
      exact absurd h (by simp)
    rcases hworst : loopBest (fun p b => decide (p.2 < b.2)) (seasonalGroups cal rows) with
      _ | worst
    · rw [hbest, hworst] at h
      exact absurd h (by simp)
    rw [hbest, hworst] at h
    obtain rfl := (Option.some.inj h).symm
    constructor
    · intro p hp
      exact (loopBest_max (fun q => q.2) _ (fun c b => by simp) _ _ hbest).2 p hp
    · intro h0
      have h0' : weekdayAvgOf cal rows = 0 := h0
      show (if 0 < weekdayAvgOf cal rows then
        ((weekendAvgOf cal rows - weekdayAvgOf cal rows) / weekdayAvgOf cal rows) * 100
        else 0) = 0
      rw [if_neg]
      rw [h0']
      exact lt_irrefl 0

/-- C9 witness: the one-day series `[(0, 5)]` yields a seasonal result. -/
theorem C9_witness : analyze_seasonal_patterns trivCal [(0, 5)] ≠ none :=
  (C9_seasonal_best_boost trivCal [(0, 5)]).1 (by simp)

/-- Looking up `lag_1_sales` in a `forecast_next_days` feature row reads
the last entry of the history buffer (line 313). -/
theorem lookupQ_fnRow_lag1 (cal : Calendar) (buf : List ℚ) (date : ℤ) (fc : List String)
    (h : "lag_1_sales" ∈ fc) :
    lookupQ (fnRow cal buf date fc) "lag_1_sales" = some (buf.getD (buf.length - 1) 0) := by
  by_cases h7 : "lag_7_sales" ∈ fc <;>
    by_cases hr7 : "rolling_7d_sales_avg" ∈ fc <;>
      by_cases hr30 : "rolling_30d_sales_avg" ∈ fc <;>
        simp [fnRow, lookupQ, List.find?, h, h7, hr7, hr30]

/-- Looking up `rolling_7d_sales_avg` in a `forecast_next_days` feature
row reads the mean of the last 7 entries of the history buffer
(line 323). -/
theorem lookupQ_fnRow_rolling7 (cal : Calendar) (buf : List ℚ) (date : ℤ) (fc : List String)
    (h : "rolling_7d_sales_avg" ∈ fc) :
    lookupQ (fnRow cal buf date fc) "rolling_7d_sales_avg" =
      some (listMean (lastN 7 buf)) := by
  by_cases h1 : "lag_1_sales" ∈ fc <;>
    by_cases h7 : "lag_7_sales" ∈ fc <;>
      by_cases hr30 : "rolling_30d_sales_avg" ∈ fc <;>
        simp [fnRow, lookupQ, List.find?, h, h1, h7, hr30]

/-- C2 counterexample: in `generate_predictions` (a cited multi-step
forecaster) the lag inputs are frozen at the last observed row: with
`sales_lag_1 = 10` in the last row and a backend returning
`lag_1 + 5`, step 1 predicts 15, yet step 2's `sales_lag_1` input is
still 10 ≠ 15 — so step i's lag_1 is not step (i-1)'s prediction there,
refuting the claim over the cited forecasters. -/
theorem C2_counterexample :
    genPredX trivCal [("sales_lag_1", 10)] 0 ["sales_lag_1"] 2 = [10] ∧
    (generate_predictions (fun x => x.headD 0 + 5) trivCal [("sales_lag_1", 10)] 0
      ["sales_lag_1"] 2).map (fun p => p.2) = [15, 15] ∧
    (10 : ℚ) ≠ 15 := by
  refine ⟨?_, ?_, by norm_num⟩
  · simp [genPredX, genPredFeatures, lookupQ, List.find?, trivCal]
  · simp [generate_predictions, genPredX, genPredFeatures, lookupQ, List.find?, trivCal,
      List.range_succ]
    norm_num

/-- C2 (amended): step i's lag_1 is step (i-1)'s prediction in both
recursive forecasters, but only `forecast_next_days` of train_model.py
reads **all** lag/rolling inputs from a private buffer accumulating the
predicted values.  Precisely: (1) in `forecast_next_days`, for every step
`j ≥ 1` (0-based) the `lag_1_sales` input is the step `j-1` prediction
and the `rolling_7d_sales_avg` input is the mean over the last 7 entries
of the observed-history-plus-predictions buffer; (2) in
`forecast_with_lightgbm`, step `j`'s feature vector is built from the
dict over the predictions made so far, in which `sales_lag_1` is the
step `j-1` prediction, `sales_lag_2` is the step `j-2` prediction from
step `j ≥ 2` on, but `sales_lag_3` falls back to the historical mean
from step `j ≥ 3` on and `sales_rolling_7` is always the mean of the
last 7 **observed** values — the rolling inputs never see a prediction;
`generate_predictions` of daily_predictions.py has no feedback at all
(counterexample). -/
theorem C2_recursive_buffer :
    (∀ (model : List ℚ → ℚ) (scaler : List ℚ → List ℚ) (cal : Calendar)
      (featureCols : List String) (hist : List ℚ) (lastDate : ℤ) (days j : ℕ),
      1 ≤ j → j < days →
      ("lag_1_sales" ∈ featureCols →
        lookupQ ((fnRun model scaler cal featureCols (lastDate + 1) days 0 hist).getD j
            default).row "lag_1_sales" =
          some ((fnRun model scaler cal featureCols (lastDate + 1) days 0 hist).getD (j - 1)
            default).pred) ∧
      ("rolling_7d_sales_avg" ∈ featureCols →
        lookupQ ((fnRun model scaler cal featureCols (lastDate + 1) days 0 hist).getD j
            default).row "rolling_7d_sales_avg" =
          some (listMean (lastN 7 (hist ++
            ((fnRun model scaler cal featureCols (lastDate + 1) days 0 hist).take j).map
              (fun st => st.pred)))))) ∧
    (∀ (model : List ℚ → ℚ) (features : List String) (cal : Calendar) (sales : List ℚ)
      (lastDate : ℤ) (days j : ℕ), sales ≠ [] → 1 ≤ j → j < days →
      ((lgbRun model features cal sales lastDate days 0 []).getD j default).x =
        lgbX features (lgbFeatureValues cal sales lastDate j
          (((lgbRun model features cal sales lastDate days 0 []).take j).map
            (fun s => s.pred))) ∧
      lookupQ (lgbFeatureValues cal sales lastDate j
          (((lgbRun model features cal sales lastDate days 0 []).take j).map
            (fun s => s.pred))) "sales_lag_1" =
        some ((lgbRun model features cal sales lastDate days 0 []).getD (j - 1) default).pred ∧
      (2 ≤ j →
        lookupQ (lgbFeatureValues cal sales lastDate j
            (((lgbRun model features cal sales lastDate days 0 []).take j).map
              (fun s => s.pred))) "sales_lag_2" =
          some ((lgbRun model features cal sales lastDate days 0 []).getD (j - 2)
            default).pred) ∧
      (3 ≤ j →
        lookupQ (lgbFeatureValues cal sales lastDate j
            (((lgbRun model features cal sales lastDate days 0 []).take j).map
              (fun s => s.pred))) "sales_lag_3" = some (listMean sales)) ∧
      lookupQ (lgbFeatureValues cal sales lastDate j
          (((lgbRun model features cal sales lastDate days 0 []).take j).map
            (fun s => s.pred))) "sales_rolling_7" = some (listMean (lastN 7 sales))) := by
  constructor
  · intro model scaler cal featureCols hist lastDate days j hj1 hjd
    have hrow := fnRun_getD model scaler cal featureCols (lastDate + 1) j days 0 hist hjd
    have hlen : (fnRun model scaler cal featureCols (lastDate + 1) days 0 hist).length =
        days := fnRun_length model scaler cal featureCols (lastDate + 1) days 0 hist
    have hpslen : (((fnRun model scaler cal featureCols (lastDate + 1) days 0 hist).take
        j).map (fun st => st.pred)).length = j := by
      simp only [List.length_map, List.length_take, hlen]
      omega
    have hpsne : (((fnRun model scaler cal featureCols (lastDate + 1) days 0 hist).take
        j).map (fun st => st.pred)) ≠ [] := by
      intro hc
      rw [hc] at hpslen
      simp at hpslen
      omega
    constructor
    · intro hmem
      rw [hrow]
      rw [lookupQ_fnRow_lag1 cal _ _ featureCols hmem]
      rw [getD_last_append _ _ hpsne, hpslen,
        getD_take_map _ _ j (j - 1) 0 (by omega) (by omega)]
    · intro hmem
      rw [hrow]
      rw [lookupQ_fnRow_rolling7 cal _ _ featureCols hmem]
  · intro model features cal sales lastDate days j hs hj1 hjd
    have hs0 : 0 < sales.length := List.length_pos.mpr hs
    have hrun := lgbRun_getD model features cal sales lastDate j days 0 [] hjd
    have hlen : (lgbRun model features cal sales lastDate days 0 []).length = days :=
      lgbRun_length model features cal sales lastDate days 0 []
    have hpslen : (((lgbRun model features cal sales lastDate days 0 []).take j).map
        (fun s => s.pred)).length = j := by
      simp only [List.length_map, List.length_take, hlen]
      omega
    refine ⟨?_, ?_, ?_, ?_, ?_⟩
    · rw [hrun]
      simp
    · rw [lookupQ_lgbFV_lag1 cal sales lastDate j _ hs0 (by omega)]
      rw [hpslen, getD_take_map _ _ j (j - 1) 0 (by omega) (by omega)]
    · intro hj2
      rw [lookupQ_lgbFV_lag2 cal sales lastDate j _ hs0 (by omega) (by omega)]
      rw [hpslen, getD_take_map _ _ j (j - 2) 0 (by omega) (by omega)]
    · intro hj3
      exact lookupQ_lgbFV_lag3 cal sales lastDate j _ hs0 (by omega)
    · exact lookupQ_lgbFV_rolling7 cal sales lastDate j _ hs0

/-- C2 witness: with backend `lag_1 + 1`, identity scaler, history `[10]`
and horizon 2, step 1's `lag_1_sales` input equals step 0's prediction. -/
theorem C2_witness :
    lookupQ ((fnRun (fun x => x.headD 0 + 1) (fun x => x) trivCal ["lag_1_sales"]
        ((0 : ℤ) + 1) 2 0 [10]).getD 1 default).row "lag_1_sales" =
      some ((fnRun (fun x => x.headD 0 + 1) (fun x => x) trivCal ["lag_1_sales"]
        ((0 : ℤ) + 1) 2 0 [10]).getD 0 default).pred :=
  (C2_recursive_buffer.1 (fun x => x.headD 0 + 1) (fun x => x) trivCal ["lag_1_sales"] [10] 0 2
    1 (by norm_num) (by norm_num)).1 (by simp)

end CafeForecast
